import Mathlib

/-!
Verification of the FairHire recruitment platform's candidate-scoring and
ranking core, shallowly embedded from the JavaScript source.

Embedded code:
* `src/unnamed/part_000` (the main `server.js`):
  - the `/api/applications/rank` handler (lines 628-692) over an explicit
    database state (jobs and applications tables);
  - `analyzeApplication` (lines 801-877) and `evaluateExperience`
    (lines 879-887), the scoring core;
* `src/utils/rank.js`: `rankCVs` (lines 7-28) and `extractEmail`
  (lines 30-33), the legacy ranking utility.  The external model call is a
  parameter (an oracle from the prompt's job description and CV text to the
  explanation string); the email regex is embedded as a character scanner
  with JavaScript's leftmost-match, greedy-with-backtracking semantics.

Modelling conventions: the PostgreSQL tables are lists of rows in insertion
(submission) order; `SELECT ... WHERE` is `List.filter`; `UPDATE ... WHERE
id = $n` maps over the rows.  The rank handler's pending-rows SELECT
(lines 645-648) has no ORDER BY, so PostgreSQL guarantees no result order:
a legal query result is any permutation of the matching rows
(`LegalPendingRows`), ordering-sensitive properties are stated for every
such permutation (`rankForJobRows`), and the deterministic `rankHandler`
runs one representative order — every conclusion drawn from it below is
order-independent.  A thrown JavaScript exception is `Option.none`
(`analyzeApplication` throws exactly when `JSON.parse(cvContent)` does,
modelled by `CVContent.malformed`).  JavaScript's `Array.prototype.sort` is
stable (ES2019), so the numeric-comparator sorts are modelled by a stable
descending insertion sort.  Strings are ASCII in all scoring-relevant data,
so `toLowerCase()` is `Char.toLower` over the character list.  Audit
logging and e-mail sending have no effect on the modelled state and are
omitted.
-/

namespace FairHire

/-! ### String helpers (JavaScript `toLowerCase` / `includes`) -/

/-- Lower-cased character list of a string: JS `s.toLowerCase()` on the ASCII
strings this system scores. -/
def lowerChars (s : String) : List Char :=
  s.toList.map Char.toLower

/-- Whether `pat` occurs as a prefix of `text`. -/
def startsWithChars : List Char → List Char → Bool
  | [], _ => true
  | _ :: _, [] => false
  | p :: ps, h :: hs => p == h && startsWithChars ps hs

/-- Whether `pat` occurs as a contiguous substring of `text`: JS
`text.includes(pat)`. -/
def containsChars : List Char → List Char → Bool
  | pat, [] => startsWithChars pat []
  | pat, h :: t => startsWithChars pat (h :: t) || containsChars pat t

/-! ### Data model (schema lines 176-215 of `part_000`) -/

/-- One row of `job_descriptions` (the columns the rank handler and scorer
read). -/
structure Job where
  job_key : String
  is_active : Bool
  requirements : List String
  deriving DecidableEq

/-- Parsed CV content as produced by `extractCVContent` (lines 766-799): the
fields `analyzeApplication` reads.  `name` and `email` are redaction-marker
constants there and are never read by the scorer, so they are not part of
the record. -/
structure CV where
  skills : List String
  experience : Option String
  education : Option String
  achievements : List String
  deriving DecidableEq

/-- The `cv_content` JSONB column as `analyzeApplication` consumes it
(line 802): either content that evaluates to a profile record, or content on
which `JSON.parse` / the subsequent field accesses throw. -/
inductive CVContent where
  | ok (cv : CV)
  | malformed
  deriving DecidableEq

/-- One row of `applications` (the columns the rank handler reads or
writes, plus the contact columns `email`/`phone` for the anonymity
statements). -/
structure Application where
  id : Nat
  job_key : String
  email : String
  phone : String
  status : String
  anonymized_id : String
  cv_content : CVContent
  ai_score : Option Nat
  ai_explanation : Option String
  deriving DecidableEq

/-- The database state the rank handler touches: both tables, rows in
insertion (submission) order. -/
structure DB where
  jobs : List Job
  applications : List Application
  deriving DecidableEq

/-! ### `evaluateExperience` (lines 879-887) -/

/-- Maximal run of digits at the head of the list. -/
def digitsPrefixRun : List Char → List Char
  | [] => []
  | c :: cs => if c.isDigit then c :: digitsPrefixRun cs else []

/-- First maximal run of digits in the list: the JS regex match `/(\d+)/`. -/
def firstDigitRun : List Char → Option (List Char)
  | [] => none
  | c :: cs => if c.isDigit then some (c :: digitsPrefixRun cs) else firstDigitRun cs

/-- Decimal value of a digit run: `parseInt` on a digits-only string. -/
def parseDigits (ds : List Char) : Nat :=
  ds.foldl (fun n c => n * 10 + (c.toNat - 48)) 0

/-- Years extracted from the `experience` field, line 880-881:
`cv.experience?.match(/(\d+)/)` then `parseInt`, `0` when the field is null
or holds no digit. -/
def extractYears (experience : Option String) : Nat :=
  match experience with
  | none => 0
  | some s =>
    match firstDigitRun s.toList with
    | none => 0
    | some ds => parseDigits ds

/-- Lines 879-887: the tiered experience sub-score.  The job description
argument is unused, as in the source. -/
def evaluateExperience (cv : CV) (_job : Job) : Nat :=
  let years := extractYears cv.experience
  if years ≥ 6 then 25
  else if years ≥ 4 then 20
  else if years ≥ 2 then 15
  else 10

/-! ### `analyzeApplication` (lines 801-877) -/

/-- Lines 831-833: the required skills matched by the candidate, where a
requirement matches when some candidate skill token contains it as a
case-insensitive substring. -/
def matchedSkills (job : Job) (cv : CV) : List String :=
  job.requirements.filter
    (fun req => cv.skills.any (fun sk => containsChars (lowerChars req) (lowerChars sk)))

/-- Line 835: `Math.min(40, matchedSkills.length * 8)`. -/
def skillsScore (job : Job) (cv : CV) : Nat :=
  min 40 ((matchedSkills job cv).length * 8)

/-- Lines 839-843: the skills evidence line. -/
def skillsEvidence (job : Job) (cv : CV) : String :=
  let matched := matchedSkills job cv
  if matched.length > 0 then
    let n := matched.length
    let names := String.intercalate ", " matched
    s!"✓ {n} matching skill(s): {names}"
  else "⚠️ No matching skills found"

/-- Lines 813-825: the experience evidence line (string interpolation of the
raw `experience` field; JS renders a missing field as `undefined`). -/
def experienceEvidence (cv : CV) (experienceScore : Nat) : String :=
  let expText := match cv.experience with
    | some s => s
    | none => "undefined"
  if experienceScore ≥ 20 then
    s!"✓ Excellent relevant experience: {expText} with strong background in required areas"
  else if experienceScore ≥ 15 then
    "✓ Good experience level with some relevant background"
  else "⚠️ Limited relevant experience detected"

/-- Line 847/850: `cv.education?.toLowerCase().includes(needle)`. -/
def educationContains (cv : CV) (needle : String) : Bool :=
  match cv.education with
  | none => false
  | some e => containsChars needle.toList (lowerChars e)

/-- Lines 845-857: education sub-score and evidence line. -/
def educationScoreEvidence (cv : CV) : Nat × String :=
  if educationContains cv "master" then (15, "✓ Holds a Master's degree")
  else if educationContains cv "bachelor" then (10, "✓ Holds a Bachelor's degree")
  else (0, "⚠️ Education level not clearly specified")

/-- Line 861: `Math.min(20, achievements.length * 4)`. -/
def achievementsScore (cv : CV) : Nat :=
  min 20 (cv.achievements.length * 4)

/-- Lines 865-869: the achievements evidence line. -/
def achievementsEvidence (cv : CV) : String :=
  let n := cv.achievements.length
  if n > 0 then s!"✓ {n} notable achievement(s)"
  else "⚠️ No achievements mentioned"

/-- The per-dimension sub-scores accumulated in `dimensionScores`
(lines 806, 810, 836, 856, 862). -/
structure DimScores where
  experience : Nat
  skills : Nat
  education : Nat
  achievements : Nat
  deriving DecidableEq

/-- Everything lines 801-871 compute for one candidate: sub-scores, total and
the ordered evidence lines. -/
structure FullAnalysis where
  dims : DimScores
  score : Nat
  explanationPoints : List String
  deriving DecidableEq

/-- Lines 804-871 on an already-parsed profile. -/
def analyzeCV (cv : CV) (job : Job) : FullAnalysis :=
  let experienceScore := evaluateExperience cv job
  let sScore := skillsScore job cv
  let edu := educationScoreEvidence cv
  let aScore := achievementsScore cv
  { dims :=
      { experience := experienceScore
        skills := sScore
        education := edu.1
        achievements := aScore }
    score := experienceScore + sScore + edu.1 + aScore
    explanationPoints :=
      [experienceEvidence cv experienceScore, skillsEvidence job cv, edu.2,
        achievementsEvidence cv] }

/-- What `analyzeApplication` returns (lines 873-876): total score and the
newline-joined explanation.  `dimensionScores` is computed but not returned
by the source. -/
structure Analysis where
  score : Nat
  explanation : String
  deriving DecidableEq

/-- Lines 873-876: projection to the returned record. -/
def analysisOf (fa : FullAnalysis) : Analysis :=
  { score := fa.score, explanation := String.intercalate "\n" fa.explanationPoints }

/-- Lines 801-877, starting from the raw `cv_content` column: `none` models
the `JSON.parse` throw on malformed content, which the handler's `catch`
turns into a 500 response. -/
def analyzeApplication (c : CVContent) (job : Job) : Option Analysis :=
  match c with
  | .ok cv => some (analysisOf (analyzeCV cv job))
  | .malformed => none

/-! ### The `/api/applications/rank` handler (lines 628-692) -/

/-- One element of the handler's `rankedApplications` (lines 668-673). -/
structure RankedEntry where
  id : Nat
  anonymized_id : String
  score : Nat
  explanation : String
  deriving DecidableEq

/-- Lines 668-673. -/
def entryOf (a : Application) (an : Analysis) : RankedEntry :=
  { id := a.id, anonymized_id := a.anonymized_id, score := an.score,
    explanation := an.explanation }

/-- The write of lines 662-666 applied to one row. -/
def setScore (r : Application) (s : Nat) (e : String) : Application :=
  { r with ai_score := some s, ai_explanation := some e }

/-- Lines 662-666: `UPDATE applications SET ai_score = $1, ai_explanation =
$2 WHERE id = $3`. -/
def updateScore (db : DB) (i : Nat) (s : Nat) (e : String) : DB :=
  { db with applications := db.applications.map (fun r => if r.id = i then setScore r s e else r) }

/-- Lines 645-648: the matching set of `SELECT * FROM applications WHERE
job_key = $1 AND status = 'pending' AND ai_score IS NULL`.  The query has
no ORDER BY, so the list order here is only a representative: PostgreSQL
may return these rows in any order (see `LegalPendingRows`). -/
def selectedApps (db : DB) (k : String) : List Application :=
  db.applications.filter
    (fun a => a.job_key == k && a.status == "pending" && a.ai_score.isNone)

/-- A legal result of the ORDER-BY-less SELECT of lines 645-648: any
permutation of the matching rows. -/
def LegalPendingRows (db : DB) (k : String) (rows : List Application) : Prop :=
  rows.Perm (selectedApps db k)

/-- Outcome of the scoring loop of lines 657-674: either it ran to the end,
or an iteration threw (the updates already applied stay applied — there is
no transaction). -/
inductive ProcResult where
  | failed (db : DB)
  | done (entries : List RankedEntry) (db : DB)
  deriving DecidableEq

/-- Lines 657-674: score each selected application in order, persisting each
score before moving on. -/
def processApps (job : Job) : List Application → DB → ProcResult
  | [], db => .done [] db
  | a :: rest, db =>
    match analyzeApplication a.cv_content job with
    | none => .failed db
    | some an =>
      match processApps job rest (updateScore db a.id an.score an.explanation) with
      | .failed dbf => .failed dbf
      | .done es dbf => .done (entryOf a an :: es) dbf

/-- Stable insertion keeping keys descending: the element goes before the
first list element whose key is not larger. -/
def insertByDesc (key : α → Nat) (e : α) : List α → List α
  | [] => [e]
  | x :: xs => if key x ≤ key e then e :: x :: xs else x :: insertByDesc key e xs

/-- JS `Array.prototype.sort` with comparator `(a, b) => key(b) - key(a)`:
stable (ES2019), descending by key. -/
def sortByDesc (key : α → Nat) (l : List α) : List α :=
  l.foldr (insertByDesc key) []

/-- The handler's possible HTTP responses (lines 632-690). -/
inductive RankResponse where
  | badRequest (msg : String)
  | notFound (msg : String)
  | serverError (msg : String)
  | ok (entries : List RankedEntry)
  deriving DecidableEq

/-- Lines 652-692 on an explicit query-result row list: empty-batch check,
scoring loop, sort, response.  The handler runs this on whatever order the
ORDER-BY-less SELECT of lines 645-648 happened to return. -/
def rankForJobRows (db : DB) (job : Job) (rows : List Application) : RankResponse × DB :=
  if rows.isEmpty then (.badRequest "No pending applications to rank", db)
  else
    match processApps job rows db with
    | .failed dbf => (.serverError "Failed to rank applications", dbf)
    | .done es dbf => (.ok (sortByDesc (fun e => e.score) es), dbf)

/-- Lines 645-692: the handler's work once the job row is found: select the
pending unscored batch, reject an empty batch, run the scoring loop, sort
and respond. -/
def rankForJob (db : DB) (k : String) (job : Job) : RankResponse × DB :=
  let apps := selectedApps db k
  if apps.isEmpty then (.badRequest "No pending applications to rank", db)
  else
    match processApps job apps db with
    | .failed dbf => (.serverError "Failed to rank applications", dbf)
    | .done es dbf => (.ok (sortByDesc (fun e => e.score) es), dbf)

/-- Lines 628-692: the whole `/api/applications/rank` handler, returning the
response and the database state after the call.  `jobKey` is the request
body field; `none` or the empty string is falsy (line 632).  The job query
(line 637) filters on `job_key` only — it does not check `is_active`. -/
def rankHandler (db : DB) (jobKey : Option String) : RankResponse × DB :=
  match jobKey with
  | none => (.badRequest "Job key is required", db)
  | some k =>
    if k = "" then (.badRequest "Job key is required", db)
    else
      match db.jobs.filter (fun j => j.job_key == k) with
      | [] => (.notFound "Job not found", db)
      | job :: _ => rankForJob db k job

/-! ### `src/utils/rank.js`: `rankCVs` and `extractEmail` -/

/-- An uploaded CV as `server.js` stores it (line 30 of `server.js`):
original file name and raw text content. -/
structure RawCV where
  filename : String
  content : String
  deriving DecidableEq

/-- One element of `rankCVs`' result (lines 19-23 of `rank.js`): the spread
`...cv` keeps every candidate field, then the model's explanation and the
e-mail extracted from the CV text are added. -/
structure RankedCV where
  filename : String
  content : String
  explanation : String
  email : String
  deriving DecidableEq

/-- Character class `[a-zA-Z0-9._%+-]` of the e-mail regex (line 31 of
`rank.js`). -/
def isLocalChar (c : Char) : Bool :=
  c.isAlpha || c.isDigit || c == '.' || c == '_' || c == '%' || c == '+' || c == '-'

/-- Character class `[a-zA-Z0-9.-]`. -/
def isDomainChar (c : Char) : Bool :=
  c.isAlpha || c.isDigit || c == '.' || c == '-'

/-- Backtracking step for `[a-zA-Z0-9.-]+\.[a-zA-Z]{2,}` inside the maximal
domain-character run: the rightmost `.` whose following letters number at
least two wins (the greedy `+` shrinks from the right). -/
def findDotSplit : List Char → Option (List Char × List Char)
  | [] => none
  | c :: cs =>
    match findDotSplit cs with
    | some (pre, tld) => some (c :: pre, tld)
    | none =>
      if c == '.' then
        let tld := cs.takeWhile (fun d => d.isAlpha)
        if tld.length ≥ 2 then some ([], tld) else none
      else none

/-- Leftmost match of `/[a-zA-Z0-9._%+-]+@[a-zA-Z0-9.-]+\.[a-zA-Z]{2,}/`:
scan left to right accumulating the current run of local-part characters;
at each `@` preceded by a nonempty run, try the domain part on the maximal
domain-character run after it. -/
def scanEmail : List Char → List Char → Option String
  | _, [] => none
  | revLoc, c :: rest =>
    if c == '@' then
      if revLoc.isEmpty then scanEmail [] rest
      else
        match findDotSplit (rest.takeWhile isDomainChar) with
        | some (pre, tld) =>
          some (String.mk (revLoc.reverse ++ c :: (pre ++ '.' :: tld)))
        | none => scanEmail [] rest
    else if isLocalChar c then scanEmail (c :: revLoc) rest
    else scanEmail [] rest

/-- Lines 30-33 of `rank.js`: first e-mail-shaped substring of the text, or
the fallback address. -/
def extractEmail (text : String) : String :=
  match scanEmail [] text.toList with
  | some e => e
  | none => "unknown@example.com"

/-- Lines 7-28 of `rank.js`.  The OpenAI chat completion is abstracted as
`model`, a function from the prompt's job description and CV text to the
returned explanation string (the `cv.content` interpolation of line 15).
Each result spreads the whole input record and adds the explanation and the
extracted e-mail; line 27 then sorts by explanation length, descending. -/
def rankCVs (model : String → String → String) (cvs : List RawCV)
    (jobDesc : String) : List RankedCV :=
  let results := cvs.map (fun cv =>
    { filename := cv.filename, content := cv.content,
      explanation := model jobDesc cv.content,
      email := extractEmail cv.content : RankedCV })
  sortByDesc (fun r => r.explanation.length) results

/-! ### Specification-side reference definitions -/

/-- The tiered experience mapping exactly as §4.1 of the spec words it
(`years>=6 → 25`, `years>=4 → 20`, `years>=2 → 15`, else `10`), to be
compared with the source-embedded `evaluateExperience`. -/
def specExperienceTier (years : Nat) : Nat :=
  if years ≥ 6 then 25
  else if years ≥ 4 then 20
  else if years ≥ 2 then 15
  else 10

/-! ### Concrete fixtures used by witnesses and counterexamples -/

/-- A profile with no skills, no experience, no education, no
achievements. -/
def cvEmptyP : CV :=
  { skills := [], experience := none, education := none, achievements := [] }

/-- A job with no requirements. -/
def jobAny : Job := { job_key := "any", is_active := true, requirements := [] }

/-- Explanation text `analyzeApplication` produces for `cvEmptyP` under a
job with no requirements: all four warning lines. -/
def warnExplanation : String :=
  "⚠️ Limited relevant experience detected\n⚠️ No matching skills found\n⚠️ Education level not clearly specified\n⚠️ No achievements mentioned"

/-- A profile whose only difference from `cvEmptyP` is the experience
field. -/
def cvWithExp (e : Option String) : CV :=
  { skills := [], experience := e, education := none, achievements := [] }

/-- The job of the spec's §8 end-to-end scenario. -/
def jobC5 : Job :=
  { job_key := "software-engineer", is_active := true,
    requirements := ["JavaScript", "SQL"] }

/-- The candidate of the spec's §8 end-to-end scenario. -/
def cvC5 : CV :=
  { skills := ["javascript", "react", "sql"], experience := some "6 years",
    education := some "Bachelor's degree",
    achievements := ["Led successful project implementations",
      "Improved system performance by 30%",
      "Collaborated with cross-functional teams"] }

/-- The job of the spec's §8 skills-dimension example. -/
def jobC6 : Job :=
  { job_key := "data-platform", is_active := true,
    requirements := ["SQL", "Docker"] }

/-- The candidate of the spec's §8 skills-dimension example. -/
def cvC6 : CV :=
  { skills := ["postgresql", "docker", "git"], experience := none,
    education := none, achievements := [] }

/-- Constant stand-in for the external model of `rankCVs`. -/
def constModel : String → String → String := fun _ _ => "ok"

/-- An uploaded CV whose text carries a name and an e-mail address. -/
def cvJohn : RawCV :=
  { filename := "cv1.pdf", content := "John Smith john@mail.com javascript sql" }

/-- Identical to `cvJohn` except for the personal name and e-mail inside
the text. -/
def cvJane : RawCV :=
  { filename := "cv1.pdf", content := "Jane Brown jane@post.org javascript sql" }

/-- Job row for the contact-blindness witness. -/
def jobP : Job := { job_key := "jobp", is_active := true, requirements := [] }

/-- A pending unscored application with the given contact data. -/
def appP (em ph : String) : Application :=
  { id := 1, job_key := "jobp", email := em, phone := ph, status := "pending",
    anonymized_id := "APP_PPP111", cv_content := .ok cvEmptyP,
    ai_score := none, ai_explanation := none }

/-- Database whose only application belongs to Alice. -/
def dbP1 : DB := { jobs := [jobP], applications := [appP "alice@mail.com" "0501111111"] }

/-- The same database with the contact columns replaced by Bob's. -/
def dbP2 : DB := { jobs := [jobP], applications := [appP "bob@post.org" "0402222222"] }

/-- An empty database: no jobs, no applications. -/
def dbNoJob : DB := { jobs := [], applications := [] }

/-- A database with one job and no applications at all. -/
def dbJobNoApps : DB := { jobs := [jobAny], applications := [] }

/-- An inactive job. -/
def jobLegacy : Job := { job_key := "legacy", is_active := false, requirements := [] }

/-- A pending unscored application for the inactive job. -/
def appLegacy : Application :=
  { id := 7, job_key := "legacy", email := "leg@mail.com", phone := "0507777777",
    status := "pending", anonymized_id := "APP_LEG777", cv_content := .ok cvEmptyP,
    ai_score := none, ai_explanation := none }

/-- Database holding only the inactive job and its pending application. -/
def dbInact : DB := { jobs := [jobLegacy], applications := [appLegacy] }

/-- State of `dbInact` after the rank call scored the application. -/
def dbInactAfter : DB :=
  { jobs := [jobLegacy], applications := [setScore appLegacy 10 warnExplanation] }

/-- The ranking entry the inactive job's candidate receives. -/
def entryLegacy : RankedEntry :=
  { id := 7, anonymized_id := "APP_LEG777", score := 10, explanation := warnExplanation }

/-- Job row for the idempotence witness. -/
def jobW : Job := { job_key := "jobw", is_active := true, requirements := [] }

/-- A pending unscored application. -/
def appW1 : Application :=
  { id := 1, job_key := "jobw", email := "ann@mail.com", phone := "0501234567",
    status := "pending", anonymized_id := "APP_AAA111", cv_content := .ok cvEmptyP,
    ai_score := none, ai_explanation := none }

/-- An application already scored on an earlier call. -/
def appW2 : Application :=
  { id := 2, job_key := "jobw", email := "ben@mail.com", phone := "0507654321",
    status := "pending", anonymized_id := "APP_BBB222", cv_content := .ok cvEmptyP,
    ai_score := some 50, ai_explanation := some "earlier explanation" }

/-- Database with one unscored and one already-scored application. -/
def dbW : DB := { jobs := [jobW], applications := [appW1, appW2] }

/-- The single entry the first rank call over `dbW` returns. -/
def entriesW : List RankedEntry :=
  [{ id := 1, anonymized_id := "APP_AAA111", score := 10, explanation := warnExplanation }]

/-- State of `dbW` after the first rank call. -/
def db2W : DB :=
  { jobs := [jobW], applications := [setScore appW1 10 warnExplanation, appW2] }

/-- Job row for the partial-failure fixtures. -/
def jobC4 : Job := { job_key := "jobc", is_active := true, requirements := [] }

/-- A well-formed pending application with the given id. -/
def appOkC4 (i : Nat) : Application :=
  { id := i, job_key := "jobc", email := s!"user{i}@mail.com", phone := "0501234567",
    status := "pending", anonymized_id := s!"APP_OK{i}", cv_content := .ok cvEmptyP,
    ai_score := none, ai_explanation := none }

/-- A pending application whose `cv_content` makes `analyzeApplication`
throw. -/
def appBadC4 : Application :=
  { id := 2, job_key := "jobc", email := "bad@mail.com", phone := "0500000000",
    status := "pending", anonymized_id := "APP_BAD002", cv_content := .malformed,
    ai_score := none, ai_explanation := none }

/-- Three pending applications; the second one's evaluation throws. -/
def dbC4 : DB :=
  { jobs := [jobC4], applications := [appOkC4 1, appBadC4, appOkC4 3] }

/-- State of `dbC4` after the aborted rank call: only the first application
got scored. -/
def dbC4after : DB :=
  { jobs := [jobC4],
    applications := [setScore (appOkC4 1) 10 warnExplanation, appBadC4, appOkC4 3] }

/-- Job row for the stable-sort witness. -/
def jobS : Job := { job_key := "jobst", is_active := true, requirements := [] }

/-- Pending application number `i` for `jobS`, submitted in id order. -/
def appS (i : Nat) : Application :=
  { id := i, job_key := "jobst", email := s!"cand{i}@mail.com", phone := "0509999999",
    status := "pending", anonymized_id := s!"APP_S{i}", cv_content := .ok cvEmptyP,
    ai_score := none, ai_explanation := none }

/-- Two equal-scoring candidates in submission order. -/
def dbS : DB := { jobs := [jobS], applications := [appS 1, appS 2] }

/-- The entries the scoring loop produces over `dbS` when the database
returns the rows in submission order. -/
def esS : List RankedEntry :=
  [{ id := 1, anonymized_id := "APP_S1", score := 10, explanation := warnExplanation },
   { id := 2, anonymized_id := "APP_S2", score := 10, explanation := warnExplanation }]

/-- The entries the scoring loop produces over `dbS` when the database
returns the same rows in the opposite order. -/
def esR : List RankedEntry :=
  [{ id := 2, anonymized_id := "APP_S2", score := 10, explanation := warnExplanation },
   { id := 1, anonymized_id := "APP_S1", score := 10, explanation := warnExplanation }]

/-- State of `dbS` after both candidates were scored. -/
def dbSafter : DB :=
  { jobs := [jobS],
    applications := [setScore (appS 1) 10 warnExplanation, setScore (appS 2) 10 warnExplanation] }

/-! ### Lemmas: substring matching -/

theorem startsWithChars_iff (p t : List Char) :
    startsWithChars p t = true ↔ p <+: t := by
  induction p generalizing t with
  | nil => simp [startsWithChars, List.nil_prefix]
  | cons c cs ih =>
    cases t with
    | nil => simp [startsWithChars]
    | cons h hs =>
      simp [startsWithChars, List.cons_prefix_cons, ih, Bool.and_eq_true,
        beq_iff_eq, And.comm]

theorem containsChars_iff (p t : List Char) :
    containsChars p t = true ↔ p <:+: t := by
  induction t with
  | nil =>
    simp [containsChars, startsWithChars_iff, List.prefix_nil, List.infix_nil]
  | cons h hs ih =>
    simp only [containsChars, Bool.or_eq_true, startsWithChars_iff, ih,
      List.infix_cons_iff]

/-! ### Lemmas: the stable descending sort -/

theorem mem_insertByDesc {α : Type} (key : α → Nat) (e : α) (l : List α) (a : α) :
    a ∈ insertByDesc key e l ↔ a = e ∨ a ∈ l := by
  induction l with
  | nil => simp [insertByDesc]
  | cons x xs ih =>
    by_cases hx : key x ≤ key e
    · simp [insertByDesc, hx]
    · simp only [insertByDesc, if_neg hx, List.mem_cons, ih]
      tauto

theorem pairwise_insertByDesc {α : Type} (key : α → Nat) (e : α) (l : List α)
    (h : l.Pairwise (fun a b => key b ≤ key a)) :
    (insertByDesc key e l).Pairwise (fun a b => key b ≤ key a) := by
  induction l with
  | nil => simp [insertByDesc]
  | cons x xs ih =>
    rw [List.pairwise_cons] at h
    by_cases hx : key x ≤ key e
    · rw [insertByDesc, if_pos hx, List.pairwise_cons]
      refine ⟨?_, List.pairwise_cons.2 h⟩
      intro b hb
      rcases List.mem_cons.1 hb with rfl | hb
      · exact hx
      · exact le_trans (h.1 b hb) hx
    · rw [insertByDesc, if_neg hx, List.pairwise_cons]
      refine ⟨?_, ih h.2⟩
      intro b hb
      rcases (mem_insertByDesc key e xs b).1 hb with rfl | hb
      · omega
      · exact h.1 b hb

theorem sortByDesc_pairwise {α : Type} (key : α → Nat) (l : List α) :
    (sortByDesc key l).Pairwise (fun a b => key b ≤ key a) := by
  induction l with
  | nil => simp [sortByDesc]
  | cons x xs ih => exact pairwise_insertByDesc key x _ ih

theorem filter_insertByDesc {α : Type} (key : α → Nat) (e : α) (l : List α) (s : Nat) :
    (insertByDesc key e l).filter (fun x => key x == s) =
      if key e == s then e :: l.filter (fun x => key x == s)
      else l.filter (fun x => key x == s) := by
  induction l with
  | nil => simp [insertByDesc, List.filter_cons]
  | cons x xs ih =>
    by_cases hx : key x ≤ key e
    · rw [insertByDesc, if_pos hx]
      by_cases he : key e == s
      · simp [List.filter_cons, he]
      · simp [List.filter_cons, he]
    · rw [insertByDesc, if_neg hx]
      by_cases hxs : key x == s
      · have hes : ¬(key e == s) := by
          simp only [beq_iff_eq] at hxs ⊢
          omega
        simp [List.filter_cons, hxs, ih, hes]
      · simp [List.filter_cons, hxs, ih]

theorem sortByDesc_filter {α : Type} (key : α → Nat) (l : List α) (s : Nat) :
    (sortByDesc key l).filter (fun x => key x == s) =
      l.filter (fun x => key x == s) := by
  induction l with
  | nil => rfl
  | cons x xs ih =>
    show (insertByDesc key x (sortByDesc key xs)).filter _ = _
    rw [filter_insertByDesc, ih, List.filter_cons]

/-! ### Lemmas: how the scoring loop rewrites application rows -/

/-- Relation between a row before and after a run of the scoring loop that
only updated ids in `ids`: the row is untouched, or it received a score and
its id is one of the updated ones. -/
def DerivedIn (ids : List Nat) (r r' : Application) : Prop :=
  r' = r ∨ ∃ s e, r' = setScore r s e ∧ r.id ∈ ids

/-- Final database state of a loop run, for either outcome. -/
def procDB : ProcResult → DB
  | .failed db => db
  | .done _ db => db

theorem setScore_id (r : Application) (s : Nat) (e : String) :
    (setScore r s e).id = r.id := rfl

theorem derivedIn_mono {ids ids' : List Nat} {r r' : Application}
    (hsub : ∀ i ∈ ids, i ∈ ids') (h : DerivedIn ids r r') : DerivedIn ids' r r' := by
  rcases h with rfl | ⟨s, e, rfl, hid⟩
  · exact Or.inl rfl
  · exact Or.inr ⟨s, e, rfl, hsub _ hid⟩

theorem derivedIn_trans {A B : List Nat} {r r' r'' : Application}
    (h1 : DerivedIn A r r') (h2 : DerivedIn B r' r'') : DerivedIn (A ++ B) r r'' := by
  rcases h1 with rfl | ⟨s, e, rfl, hid⟩
  · exact derivedIn_mono (fun i hi => List.mem_append.2 (Or.inr hi)) h2
  · rcases h2 with rfl | ⟨s', e', rfl, _⟩
    · exact Or.inr ⟨s, e, rfl, List.mem_append.2 (Or.inl hid)⟩
    · exact Or.inr ⟨s', e', rfl, List.mem_append.2 (Or.inl hid)⟩

theorem forall₂_derivedIn_refl (ids : List Nat) (l : List Application) :
    List.Forall₂ (DerivedIn ids) l l :=
  List.forall₂_same.2 (fun _ _ => Or.inl rfl)

theorem forall₂_derivedIn_trans {A B : List Nat} {l₁ l₂ l₃ : List Application}
    (h1 : List.Forall₂ (DerivedIn A) l₁ l₂) (h2 : List.Forall₂ (DerivedIn B) l₂ l₃) :
    List.Forall₂ (DerivedIn (A ++ B)) l₁ l₃ := by
  induction h1 generalizing l₃ with
  | nil =>
    cases h2
    exact List.Forall₂.nil
  | cons hab h ih =>
    cases h2 with
    | cons hbc h' => exact List.Forall₂.cons (derivedIn_trans hab hbc) (ih h')

theorem forall₂_mem_left {α β : Type} {R : α → β → Prop} {l : List α} {l' : List β}
    (h : List.Forall₂ R l l') {a : α} (ha : a ∈ l) : ∃ b ∈ l', R a b := by
  induction h with
  | nil => cases ha
  | cons hab _ ih =>
    rcases List.mem_cons.1 ha with rfl | ha
    · exact ⟨_, List.mem_cons_self _ _, hab⟩
    · rcases ih ha with ⟨b, hb, hr⟩
      exact ⟨b, List.mem_cons_of_mem _ hb, hr⟩

theorem forall₂_mem_right {α β : Type} {R : α → β → Prop} {l : List α} {l' : List β}
    (h : List.Forall₂ R l l') {b : β} (hb : b ∈ l') : ∃ a ∈ l, R a b := by
  induction h with
  | nil => cases hb
  | cons hab _ ih =>
    rcases List.mem_cons.1 hb with rfl | hb
    · exact ⟨_, List.mem_cons_self _ _, hab⟩
    · rcases ih hb with ⟨a, ha, hr⟩
      exact ⟨a, List.mem_cons_of_mem _ ha, hr⟩

theorem updateScore_jobs (db : DB) (i : Nat) (s : Nat) (e : String) :
    (updateScore db i s e).jobs = db.jobs := rfl

theorem updateScore_forall₂ (db : DB) (i : Nat) (s : Nat) (e : String) :
    List.Forall₂ (DerivedIn [i]) db.applications (updateScore db i s e).applications := by
  show List.Forall₂ (DerivedIn [i]) db.applications (db.applications.map _)
  rw [List.forall₂_map_right_iff]
  refine List.forall₂_same.2 (fun r _ => ?_)
  by_cases hr : r.id = i
  · rw [if_pos hr]
    exact Or.inr ⟨s, e, rfl, by simp [hr]⟩
  · rw [if_neg hr]
    exact Or.inl rfl

theorem updateScore_scored (db : DB) (i : Nat) (s : Nat) (e : String) :
    ∀ r ∈ (updateScore db i s e).applications, r.id = i → r.ai_score.isSome := by
  intro r hr hid
  rcases List.mem_map.1 hr with ⟨r₀, _, rfl⟩
  by_cases h₀ : r₀.id = i
  · simp [if_pos h₀, setScore]
  · rw [if_neg h₀] at hid ⊢
    exact absurd hid h₀

theorem updateScore_keeps_scored (db : DB) (i : Nat) (s : Nat) (e : String) (j : Nat)
    (h : ∀ r ∈ db.applications, r.id = j → r.ai_score.isSome) :
    ∀ r ∈ (updateScore db i s e).applications, r.id = j → r.ai_score.isSome := by
  intro r hr hid
  rcases List.mem_map.1 hr with ⟨r₀, hr₀, rfl⟩
  by_cases h₀ : r₀.id = i
  · simp [if_pos h₀, setScore]
  · rw [if_neg h₀] at hid ⊢
    exact h r₀ hr₀ hid

theorem processApps_cons_none (job : Job) (a : Application) (rest : List Application)
    (db : DB) (h : analyzeApplication a.cv_content job = none) :
    processApps job (a :: rest) db = .failed db := by
  simp only [processApps, h]

theorem processApps_cons_some (job : Job) (a : Application) (rest : List Application)
    (db : DB) (an : Analysis) (h : analyzeApplication a.cv_content job = some an) :
    processApps job (a :: rest) db =
      match processApps job rest (updateScore db a.id an.score an.explanation) with
      | .failed dbf => .failed dbf
      | .done es dbf => .done (entryOf a an :: es) dbf := by
  simp only [processApps, h]

theorem processApps_step (job : Job) (a : Application) (rest : List Application)
    (db : DB) (an : Analysis) (h : analyzeApplication a.cv_content job = some an) :
    procDB (processApps job (a :: rest) db) =
      procDB (processApps job rest (updateScore db a.id an.score an.explanation)) := by
  rw [processApps_cons_some job a rest db an h]
  cases processApps job rest (updateScore db a.id an.score an.explanation) <;> rfl

theorem processApps_jobs (job : Job) (apps : List Application) (db : DB) :
    (procDB (processApps job apps db)).jobs = db.jobs := by
  induction apps generalizing db with
  | nil => rfl
  | cons a rest ih =>
    cases han : analyzeApplication a.cv_content job with
    | none =>
      rw [processApps_cons_none job a rest db han]
      rfl
    | some an =>
      rw [processApps_step job a rest db an han, ih]
      rfl

theorem processApps_forall₂ (job : Job) (apps : List Application) (db : DB) :
    List.Forall₂ (DerivedIn (apps.map (fun a => a.id))) db.applications
      (procDB (processApps job apps db)).applications := by
  induction apps generalizing db with
  | nil => exact forall₂_derivedIn_refl [] db.applications
  | cons a rest ih =>
    cases han : analyzeApplication a.cv_content job with
    | none =>
      rw [processApps_cons_none job a rest db han]
      exact forall₂_derivedIn_refl _ db.applications
    | some an =>
      rw [processApps_step job a rest db an han]
      have h1 := updateScore_forall₂ db a.id an.score an.explanation
      have h2 := ih (updateScore db a.id an.score an.explanation)
      have h3 := forall₂_derivedIn_trans h1 h2
      exact List.Forall₂.imp
        (fun x y h => derivedIn_mono (fun i hi => by
          simp only [List.map_cons, List.mem_cons]
          simpa using hi) h) h3

theorem processApps_keeps_scored (job : Job) (apps : List Application) (db : DB) (j : Nat)
    (h : ∀ r ∈ db.applications, r.id = j → r.ai_score.isSome) :
    ∀ r ∈ (procDB (processApps job apps db)).applications, r.id = j → r.ai_score.isSome := by
  induction apps generalizing db with
  | nil => exact h
  | cons a rest ih =>
    cases han : analyzeApplication a.cv_content job with
    | none =>
      rw [processApps_cons_none job a rest db han]
      exact h
    | some an =>
      rw [processApps_step job a rest db an han]
      exact ih _ (updateScore_keeps_scored db a.id an.score an.explanation j h)

theorem processApps_done_scored (job : Job) (apps : List Application) (db : DB)
    (es : List RankedEntry) (dbf : DB) (h : processApps job apps db = .done es dbf) :
    ∀ a ∈ apps, ∀ r ∈ dbf.applications, r.id = a.id → r.ai_score.isSome := by
  induction apps generalizing db es with
  | nil => intro a ha; cases ha
  | cons b rest ih =>
    intro a ha r hr hid
    cases han : analyzeApplication b.cv_content job with
    | none =>
      rw [processApps_cons_none job b rest db han] at h
      cases h
    | some an =>
      rw [processApps_cons_some job b rest db an han] at h
      cases hrec : processApps job rest (updateScore db b.id an.score an.explanation) with
      | failed dbf' =>
        simp only [hrec] at h
        cases h
      | done es' dbf' =>
        simp only [hrec] at h
        cases h
        rcases List.mem_cons.1 ha with rfl | ha
        · have hkeeps := processApps_keeps_scored job rest
            (updateScore db a.id an.score an.explanation) a.id
            (updateScore_scored db a.id an.score an.explanation)
          rw [hrec] at hkeeps
          exact hkeeps r hr hid
        · exact ih _ _ hrec a ha r hr hid

theorem processApps_done_ids (job : Job) (apps : List Application) (db : DB)
    (es : List RankedEntry) (dbf : DB) (h : processApps job apps db = .done es dbf) :
    es.map (fun e => e.id) = apps.map (fun a => a.id) := by
  induction apps generalizing db es with
  | nil =>
    rw [processApps] at h
    cases h
    rfl
  | cons b rest ih =>
    cases han : analyzeApplication b.cv_content job with
    | none =>
      rw [processApps_cons_none job b rest db han] at h
      cases h
    | some an =>
      rw [processApps_cons_some job b rest db an han] at h
      cases hrec : processApps job rest (updateScore db b.id an.score an.explanation) with
      | failed dbf' =>
        simp only [hrec] at h
        cases h
      | done es' dbf' =>
        simp only [hrec] at h
        cases h
        simp only [List.map_cons, entryOf]
        rw [ih _ _ hrec]

/-! ### Lemmas: selection and handler inversion -/

theorem mem_selectedApps (db : DB) (k : String) (a : Application) :
    a ∈ selectedApps db k ↔
      a ∈ db.applications ∧ a.job_key = k ∧ a.status = "pending" ∧ a.ai_score = none := by
  simp [selectedApps, List.mem_filter, Bool.and_eq_true, beq_iff_eq,
    Option.isNone_iff_eq_none, and_assoc]

theorem rankHandler_ok_inv (db : DB) (k : String) (entries : List RankedEntry) (db2 : DB)
    (h : rankHandler db (some k) = (.ok entries, db2)) :
    k ≠ "" ∧
    ∃ job restJ, db.jobs.filter (fun j => j.job_key == k) = job :: restJ ∧
      selectedApps db k ≠ [] ∧
      ∃ es, processApps job (selectedApps db k) db = .done es db2 ∧
        entries = sortByDesc (fun e => e.score) es := by
  rw [rankHandler] at h
  by_cases hk : k = ""
  · rw [if_pos hk] at h
    cases h
  · rw [if_neg hk] at h
    refine ⟨hk, ?_⟩
    cases hfil : db.jobs.filter (fun j => j.job_key == k) with
    | nil =>
      rw [hfil] at h
      cases h
    | cons job restJ =>
      simp only [hfil, rankForJob] at h
      refine ⟨job, restJ, rfl, ?_⟩
      by_cases hemp : (selectedApps db k).isEmpty
      · rw [if_pos hemp] at h
        cases h
      · rw [if_neg hemp] at h
        refine ⟨by simpa [List.isEmpty_iff] using hemp, ?_⟩
        cases hproc : processApps job (selectedApps db k) db with
        | failed dbf =>
          simp only [hproc] at h
          cases h
        | done es dbf =>
          simp only [hproc] at h
          cases h
          exact ⟨es, rfl, rfl⟩

/-! ### Lemmas: the response is a function of the scoring-relevant columns -/

/-- Agreement on every column the rank handler's response can depend on:
everything except the contact columns `email` and `phone` (and the
`ai_explanation` text, which the response never reads). -/
def ScoringEq (a b : Application) : Prop :=
  a.id = b.id ∧ a.job_key = b.job_key ∧ a.status = b.status ∧
    a.anonymized_id = b.anonymized_id ∧ a.cv_content = b.cv_content ∧
    a.ai_score = b.ai_score

/-- The entry list of a loop run depends only on the selected applications,
not on the database being updated: the loop's pure projection. -/
def procEntries (job : Job) : List Application → Option (List RankedEntry)
  | [] => some []
  | a :: rest =>
    match analyzeApplication a.cv_content job with
    | none => none
    | some an => (procEntries job rest).map (fun es => entryOf a an :: es)

theorem procEntries_done (job : Job) (apps : List Application) (db : DB)
    (es : List RankedEntry) (dbf : DB) (h : processApps job apps db = .done es dbf) :
    procEntries job apps = some es := by
  induction apps generalizing db es with
  | nil =>
    rw [processApps] at h
    cases h
    rfl
  | cons b rest ih =>
    cases han : analyzeApplication b.cv_content job with
    | none =>
      rw [processApps_cons_none job b rest db han] at h
      cases h
    | some an =>
      rw [processApps_cons_some job b rest db an han] at h
      cases hrec : processApps job rest (updateScore db b.id an.score an.explanation) with
      | failed dbf' =>
        simp only [hrec] at h
        cases h
      | done es' dbf' =>
        simp only [hrec] at h
        cases h
        simp only [procEntries, han, ih _ _ hrec, Option.map_some']

theorem procEntries_failed (job : Job) (apps : List Application) (db : DB)
    (dbf : DB) (h : processApps job apps db = .failed dbf) :
    procEntries job apps = none := by
  induction apps generalizing db with
  | nil =>
    rw [processApps] at h
    cases h
  | cons b rest ih =>
    cases han : analyzeApplication b.cv_content job with
    | none => simp only [procEntries, han]
    | some an =>
      rw [processApps_cons_some job b rest db an han] at h
      cases hrec : processApps job rest (updateScore db b.id an.score an.explanation) with
      | failed dbf' =>
        simp only [hrec] at h
        cases h
        simp only [procEntries, han, ih _ hrec, Option.map_none']
      | done es' dbf' =>
        simp only [hrec] at h
        cases h

theorem procEntries_congr (job : Job) (apps1 apps2 : List Application)
    (h : List.Forall₂ ScoringEq apps1 apps2) :
    procEntries job apps1 = procEntries job apps2 := by
  induction h with
  | nil => rfl
  | cons hab hrest ih =>
    rcases hab with ⟨hid, _, _, hanon, hcv, _⟩
    simp only [procEntries, hcv, ih]
    cases analyzeApplication _ job with
    | none => rfl
    | some an =>
      simp only [entryOf, hid, hanon]

theorem filter_scoringEq_forall₂ (k : String) {l1 l2 : List Application}
    (h : List.Forall₂ ScoringEq l1 l2) :
    List.Forall₂ ScoringEq
      (l1.filter (fun a => a.job_key == k && a.status == "pending" && a.ai_score.isNone))
      (l2.filter (fun a => a.job_key == k && a.status == "pending" && a.ai_score.isNone)) := by
  induction h with
  | nil => exact List.Forall₂.nil
  | cons hab hrest ih =>
    rename_i a b l1' l2'
    obtain ⟨hid, hjk, hst, hanon, hcv, hsc⟩ := hab
    by_cases hsel : (a.job_key == k && a.status == "pending" && a.ai_score.isNone) = true
    · have hsel2 : (b.job_key == k && b.status == "pending" && b.ai_score.isNone) = true := by
        rw [← hjk, ← hst, ← hsc]
        exact hsel
      rw [List.filter_cons, List.filter_cons, if_pos hsel, if_pos hsel2]
      exact List.Forall₂.cons ⟨hid, hjk, hst, hanon, hcv, hsc⟩ ih
    · have hsel2 : ¬(b.job_key == k && b.status == "pending" && b.ai_score.isNone) = true := by
        rw [← hjk, ← hst, ← hsc]
        exact hsel
      rw [List.filter_cons, List.filter_cons, if_neg hsel, if_neg hsel2]
      exact ih

theorem selectedApps_forall₂ (db1 db2 : DB) (k : String)
    (h : List.Forall₂ ScoringEq db1.applications db2.applications) :
    List.Forall₂ ScoringEq (selectedApps db1 k) (selectedApps db2 k) :=
  filter_scoringEq_forall₂ k h

/-! ### Lemmas: per-dimension bounds -/

theorem evaluateExperience_bounds (cv : CV) (job : Job) :
    10 ≤ evaluateExperience cv job ∧ evaluateExperience cv job ≤ 25 := by
  simp only [evaluateExperience]
  split_ifs <;> omega

theorem educationScore_cases (cv : CV) :
    (educationScoreEvidence cv).1 = 15 ∨ (educationScoreEvidence cv).1 = 10 ∨
      (educationScoreEvidence cv).1 = 0 := by
  simp only [educationScoreEvidence]
  split_ifs <;> simp

theorem analyzeCV_dims_experience (cv : CV) (job : Job) :
    (analyzeCV cv job).dims.experience = evaluateExperience cv job := rfl

theorem analyzeCV_dims_skills (cv : CV) (job : Job) :
    (analyzeCV cv job).dims.skills = skillsScore job cv := rfl

theorem analyzeCV_dims_education (cv : CV) (job : Job) :
    (analyzeCV cv job).dims.education = (educationScoreEvidence cv).1 := rfl

theorem analyzeCV_dims_achievements (cv : CV) (job : Job) :
    (analyzeCV cv job).dims.achievements = achievementsScore cv := rfl

theorem analyzeCV_score_eq (cv : CV) (job : Job) :
    (analyzeCV cv job).score =
      evaluateExperience cv job + skillsScore job cv + (educationScoreEvidence cv).1 +
        achievementsScore cv := rfl

/-! ### The claims -/

/-- C5: for a job requiring JavaScript and SQL under the 25/40/15/20
scheme, a candidate with skills javascript/react/sql, 6 years of
experience, a bachelor's degree and 3 achievements scores
25 + 16 + 10 + 12 = 63, and the explanation lists both matched skills. -/
theorem C5_scenario_total_63 :
    (analyzeCV cvC5 jobC5).score = 63 ∧
    (analyzeCV cvC5 jobC5).dims =
      { experience := 25, skills := 16, education := 10, achievements := 12 } ∧
    matchedSkills jobC5 cvC5 = ["JavaScript", "SQL"] ∧
    (analysisOf (analyzeCV cvC5 jobC5)).explanation =
      "✓ Excellent relevant experience: 6 years with strong background in required areas\n✓ 2 matching skill(s): JavaScript, SQL\n✓ Holds a Bachelor's degree\n✓ 3 notable achievement(s)" :=
  ⟨rfl, rfl, rfl, rfl⟩

/-- C6: a required skill is matched exactly when some candidate skill token
contains it as a case-insensitive substring; the skills sub-score is
`min 40 (matchedCount * 8)`; a zero match count yields the single warning
evidence line.  Instantiated at the spec's postgresql/docker example. -/
theorem C6_skills_substring_rule (job : Job) (cv : CV) :
    (∀ r : String, r ∈ matchedSkills job cv ↔
      r ∈ job.requirements ∧ ∃ sk ∈ cv.skills, List.IsInfix (lowerChars r) (lowerChars sk)) ∧
    skillsScore job cv = min 40 ((matchedSkills job cv).length * 8) ∧
    ((matchedSkills job cv).length = 0 →
      skillsEvidence job cv = "⚠️ No matching skills found") ∧
    matchedSkills jobC6 cvC6 = ["SQL", "Docker"] ∧
    skillsScore jobC6 cvC6 = min 40 (2 * 8) := by
  refine ⟨?_, rfl, ?_, rfl, rfl⟩
  · intro r
    simp only [matchedSkills, List.mem_filter, List.any_eq_true, containsChars_iff]
  · intro h
    simp [skillsEvidence, h]

/-- C7: the experience sub-score is the tiered mapping of the extracted
years (`>=6 → 25`, `>=4 → 20`, `>=2 → 15`, else `10`), a null or digitless
experience field counts as 0 years, and in particular 7 → 25, 5 → 20,
3 → 15, 0 → 10 and null → 10. -/
theorem C7_experience_tiers :
    (∀ cv : CV, ∀ job : Job,
      evaluateExperience cv job = specExperienceTier (extractYears cv.experience)) ∧
    extractYears none = 0 ∧
    (∀ s : String, firstDigitRun s.toList = none → extractYears (some s) = 0) ∧
    extractYears (some "7 years") = 7 ∧
    evaluateExperience (cvWithExp (some "7 years")) jobAny = 25 ∧
    evaluateExperience (cvWithExp (some "5 years")) jobAny = 20 ∧
    evaluateExperience (cvWithExp (some "3 years")) jobAny = 15 ∧
    evaluateExperience (cvWithExp (some "0 years")) jobAny = 10 ∧
    evaluateExperience (cvWithExp none) jobAny = 10 := by
  refine ⟨fun cv job => rfl, rfl, ?_, rfl, rfl, rfl, rfl, rfl, rfl⟩
  intro s h
  have h' : firstDigitRun s.data = none := h
  simp [extractYears, h']

/-- C8: for every profile and rubric, each dimension sub-score is within
its weight (25/40/15/20), the total equals the sum of the four sub-scores,
and the total lies within [0, 100]. -/
theorem C8_score_bounds_and_sum (cv : CV) (job : Job) :
    (analyzeCV cv job).dims.experience ≤ 25 ∧
    (analyzeCV cv job).dims.skills ≤ 40 ∧
    (analyzeCV cv job).dims.education ≤ 15 ∧
    (analyzeCV cv job).dims.achievements ≤ 20 ∧
    (analyzeCV cv job).score =
      (analyzeCV cv job).dims.experience + (analyzeCV cv job).dims.skills +
        (analyzeCV cv job).dims.education + (analyzeCV cv job).dims.achievements ∧
    (analyzeCV cv job).score ≤ 100 := by
  have hexp := evaluateExperience_bounds cv job
  have hsk : skillsScore job cv ≤ 40 := Nat.min_le_left _ _
  have hedu := educationScore_cases cv
  have hach : achievementsScore cv ≤ 20 := Nat.min_le_left _ _
  refine ⟨?_, ?_, ?_, ?_, rfl, ?_⟩
  · rw [analyzeCV_dims_experience]
    exact hexp.2
  · rw [analyzeCV_dims_skills]
    exact hsk
  · rw [analyzeCV_dims_education]
    rcases hedu with h | h | h <;> omega
  · rw [analyzeCV_dims_achievements]
    exact hach
  · rw [analyzeCV_score_eq]
    rcases hedu with h | h | h <;> omega

/-- C10: the experience sub-score never falls below the 10-point fallback
tier, so the total score is at least 10 and never 0 — already for a
candidate with no skills, no experience, no education and no
achievements. -/
theorem C10_score_floor (cv : CV) (job : Job) :
    10 ≤ (analyzeCV cv job).dims.experience ∧
    10 ≤ (analyzeCV cv job).score ∧
    (analyzeCV cv job).score ≠ 0 ∧
    (analyzeCV cvEmptyP jobAny).score = 10 := by
  have hexp := evaluateExperience_bounds cv job
  refine ⟨?_, ?_, ?_, rfl⟩
  · rw [analyzeCV_dims_experience]
    exact hexp.1
  · rw [analyzeCV_score_eq]
    omega
  · rw [analyzeCV_score_eq]
    omega

/-- C1 (amended): the `/api/applications/rank` response is a function of
the scoring-relevant columns alone — two databases whose applications agree
on id, job key, status, anonymized id, CV content and score state (and may
differ arbitrarily in the contact columns `email` and `phone`) produce the
same response, whose entries carry only id, anonymized id, score and
explanation.  The legacy `rankCVs` utility violates the claim as stated —
see its counterexample. -/
theorem C1_rank_response_contact_blind (db1 db2 : DB) (jobKey : Option String)
    (hjobs : db1.jobs = db2.jobs)
    (happs : List.Forall₂ ScoringEq db1.applications db2.applications) :
    (rankHandler db1 jobKey).fst = (rankHandler db2 jobKey).fst := by
  cases jobKey with
  | none => rfl
  | some k =>
    rw [rankHandler, rankHandler]
    by_cases hk : k = ""
    · rw [if_pos hk, if_pos hk]
    · rw [if_neg hk, if_neg hk, hjobs]
      cases hfil : db2.jobs.filter (fun j => j.job_key == k) with
      | nil => rfl
      | cons job restJ =>
        show (rankForJob db1 k job).1 = (rankForJob db2 k job).1
        have hsel := selectedApps_forall₂ db1 db2 k happs
        have hlen := List.Forall₂.length_eq hsel
        have hemp : (selectedApps db1 k).isEmpty = (selectedApps db2 k).isEmpty := by
          cases hC1 : selectedApps db1 k with
          | nil =>
            cases hC2 : selectedApps db2 k with
            | nil => rfl
            | cons y ys =>
              rw [hC1, hC2] at hlen
              simp at hlen
          | cons x xs =>
            cases hC2 : selectedApps db2 k with
            | nil =>
              rw [hC1, hC2] at hlen
              simp at hlen
            | cons y ys => rfl
        simp only [rankForJob]
        rw [hemp]
        by_cases hE : (selectedApps db2 k).isEmpty = true
        · rw [if_pos hE, if_pos hE]
        · rw [if_neg hE, if_neg hE]
          have hent := procEntries_congr job _ _ hsel
          cases hp1 : processApps job (selectedApps db1 k) db1 with
          | failed dbf1 =>
            cases hp2 : processApps job (selectedApps db2 k) db2 with
            | failed dbf2 => rfl
            | done es2 dbf2 =>
              rw [procEntries_failed job _ db1 dbf1 hp1,
                procEntries_done job _ db2 es2 dbf2 hp2] at hent
              cases hent
          | done es1 dbf1 =>
            cases hp2 : processApps job (selectedApps db2 k) db2 with
            | failed dbf2 =>
              rw [procEntries_done job _ db1 es1 dbf1 hp1,
                procEntries_failed job _ db2 dbf2 hp2] at hent
              cases hent
            | done es2 dbf2 =>
              rw [procEntries_done job _ db1 es1 dbf1 hp1,
                procEntries_done job _ db2 es2 dbf2 hp2] at hent
              cases hent
              rfl

/-- Witness for C1's amended theorem: two one-application databases that
differ only in the applicant's e-mail and phone get the same ranking
response. -/
theorem C1_contact_blind_witness :
    (rankHandler dbP1 (some "jobp")).fst = (rankHandler dbP2 (some "jobp")).fst :=
  C1_rank_response_contact_blind dbP1 dbP2 (some "jobp") rfl
    (List.Forall₂.cons ⟨rfl, rfl, rfl, rfl, rfl, rfl⟩ List.Forall₂.nil)

/-- C1 counterexample: the legacy `rankCVs` output carries the candidate's
e-mail (extracted from the CV text) and the full CV content, so it is not
limited to anonymized id, score and explanation, and it changes when only
the candidate's name and e-mail change. -/
theorem C1_counterexample :
    (rankCVs constModel [cvJohn] "Backend Engineer").map (fun r => r.email) =
      ["john@mail.com"] ∧
    (rankCVs constModel [cvJohn] "Backend Engineer").map (fun r => r.content) =
      [cvJohn.content] ∧
    rankCVs constModel [cvJohn] "Backend Engineer" ≠
      rankCVs constModel [cvJane] "Backend Engineer" := by
  refine ⟨rfl, rfl, ?_⟩
  decide

/-- C2 (amended): the rank call fails with 404 exactly when no job row has
the requested key — the handler does not check `is_active`, so an inactive
job is not rejected (see the counterexample) — and with the empty-batch 400
when no pending unscored application exists for the key; in both failure
cases the database is returned unchanged (no side effects). -/
theorem C2_failure_cases_no_side_effects (db : DB) (k : String) (hk : k ≠ "") :
    (db.jobs.filter (fun j => j.job_key == k) = [] →
      rankHandler db (some k) = (.notFound "Job not found", db)) ∧
    (db.jobs.filter (fun j => j.job_key == k) ≠ [] → selectedApps db k = [] →
      rankHandler db (some k) = (.badRequest "No pending applications to rank", db)) := by
  constructor
  · intro hfil
    rw [rankHandler, if_neg hk]
    simp only [hfil]
  · intro hfil hsel
    rw [rankHandler, if_neg hk]
    cases hfil2 : db.jobs.filter (fun j => j.job_key == k) with
    | nil => exact absurd hfil2 hfil
    | cons job restJ =>
      simp only [hfil2, rankForJob, hsel, List.isEmpty_nil, if_true]

/-- Witness for C2's amended theorem: a missing job key gives 404 and an
application-free job gives the empty-batch 400, each leaving the database
untouched. -/
theorem C2_failure_witness :
    rankHandler dbNoJob (some "missing-job") = (.notFound "Job not found", dbNoJob) ∧
    rankHandler dbJobNoApps (some "any") =
      (.badRequest "No pending applications to rank", dbJobNoApps) :=
  ⟨(C2_failure_cases_no_side_effects dbNoJob "missing-job" (by decide)).1 rfl,
   (C2_failure_cases_no_side_effects dbJobNoApps "any" (by decide)).2 (by decide) rfl⟩

/-- C2 counterexample: a job with `is_active = false` is not rejected with
404 — its pending candidate is scored, persisted and returned, so the claim
"fails with NotFoundError when the job does not exist or is inactive" is
false on the inactive half. -/
theorem C2_counterexample :
    jobLegacy.is_active = false ∧
    rankHandler dbInact (some "legacy") = (.ok [entryLegacy], dbInactAfter) ∧
    dbInactAfter ≠ dbInact := by
  refine ⟨rfl, rfl, ?_⟩
  decide

/-- C3: the rank call scores exactly the pending unscored candidates — an
already-scored or non-pending row is returned unchanged — and a second call
with no new candidates finds an empty batch: it fails with the empty-batch
error and changes nothing, the behavior of an empty delta (no candidate
re-scored). -/
theorem C3_rank_idempotent (db : DB) (k : String) (entries : List RankedEntry) (db2 : DB)
    (h : rankHandler db (some k) = (.ok entries, db2))
    (hids : (db.applications.map (fun a => a.id)).Nodup) :
    rankHandler db2 (some k) = (.badRequest "No pending applications to rank", db2) ∧
    ∀ a ∈ db.applications, a.status ≠ "pending" ∨ a.ai_score ≠ none →
      a ∈ db2.applications := by
  obtain ⟨hk, job, restJ, hfil, hne, es, hproc, hent⟩ := rankHandler_ok_inv db k entries db2 h
  have hjobs2 : db2.jobs = db.jobs := by
    have h0 := processApps_jobs job (selectedApps db k) db
    rw [hproc] at h0
    exact h0
  have hfa : List.Forall₂ (DerivedIn ((selectedApps db k).map (fun a => a.id)))
      db.applications db2.applications := by
    have h0 := processApps_forall₂ job (selectedApps db k) db
    rw [hproc] at h0
    exact h0
  have hscored := processApps_done_scored job (selectedApps db k) db es db2 hproc
  have hselnil : selectedApps db2 k = [] := by
    rw [List.eq_nil_iff_forall_not_mem]
    intro r hr
    rw [mem_selectedApps] at hr
    obtain ⟨hrmem, hrk, hrst, hrsc⟩ := hr
    obtain ⟨r0, hr0mem, hder⟩ := forall₂_mem_right hfa hrmem
    rcases hder with rfl | ⟨s, e, rfl, _⟩
    · have hrsel : r ∈ selectedApps db k :=
        (mem_selectedApps db k r).2 ⟨hr0mem, hrk, hrst, hrsc⟩
      have hsome := hscored r hrsel r hrmem rfl
      rw [hrsc] at hsome
      cases hsome
    · rw [setScore] at hrsc
      cases hrsc
  constructor
  · rw [rankHandler, if_neg hk, hjobs2]
    simp only [hfil, rankForJob, hselnil, List.isEmpty_nil, if_true]
  · intro a hamem hcond
    obtain ⟨b, hbmem, hder⟩ := forall₂_mem_left hfa hamem
    rcases hder with rfl | ⟨s, e, rfl, hid⟩
    · exact hbmem
    · obtain ⟨c, hcsel, hcid⟩ := List.mem_map.1 hid
      obtain ⟨hcmem, _, hcst, hcsc⟩ := (mem_selectedApps db k c).1 hcsel
      have hca : c = a := List.inj_on_of_nodup_map hids hcmem hamem hcid
      rcases hcond with hcond | hcond
      · exact absurd (hca ▸ hcst) hcond
      · exact absurd (hca ▸ hcsc) hcond

/-- Witness for C3: after ranking a database holding one unscored and one
already-scored application, the scored row is untouched and the second call
fails with the empty-batch error without changing anything. -/
theorem C3_idempotent_witness :
    rankHandler db2W (some "jobw") =
      (.badRequest "No pending applications to rank", db2W) ∧
    appW2 ∈ db2W.applications := by
  have h := C3_rank_idempotent dbW "jobw" entriesW db2W rfl (by decide)
  exact ⟨h.1, h.2 appW2 (by decide) (Or.inr (by decide))⟩

/-- Helper for C4: the scoring loop runs the well-formed prefix, persists
its scores, and throws at the first malformed candidate; rows other than
the prefix's are untouched. -/
theorem processApps_early_fail (job : Job) (bad : Application) (post : List Application)
    (hbad : bad.cv_content = .malformed) :
    ∀ (pre : List Application) (db : DB), (∀ b ∈ pre, b.cv_content ≠ .malformed) →
      ∃ dbf, processApps job (pre ++ bad :: post) db = .failed dbf ∧
        List.Forall₂ (DerivedIn (pre.map (fun b => b.id))) db.applications
          dbf.applications := by
  intro pre
  induction pre with
  | nil =>
    intro db _
    refine ⟨db, ?_, forall₂_derivedIn_refl [] db.applications⟩
    have han : analyzeApplication bad.cv_content job = none := by
      rw [hbad]
      rfl
    simpa using processApps_cons_none job bad post db han
  | cons b pre' ih =>
    intro db hpre
    have hb : b.cv_content ≠ .malformed := hpre b (List.mem_cons_self b pre')
    obtain ⟨cv, hcv⟩ : ∃ cv, b.cv_content = .ok cv := by
      cases hc : b.cv_content with
      | ok cv => exact ⟨cv, rfl⟩
      | malformed => exact absurd hc hb
    have han : analyzeApplication b.cv_content job =
        some (analysisOf (analyzeCV cv job)) := by
      rw [hcv]
      rfl
    obtain ⟨dbf, hp, hfa⟩ := ih
      (updateScore db b.id (analysisOf (analyzeCV cv job)).score
        (analysisOf (analyzeCV cv job)).explanation)
      (fun x hx => hpre x (List.mem_cons_of_mem b hx))
    refine ⟨dbf, ?_, ?_⟩
    · rw [show (b :: pre') ++ bad :: post = b :: (pre' ++ bad :: post) from rfl,
        processApps_cons_some job b _ db _ han, hp]
    · have h1 := updateScore_forall₂ db b.id (analysisOf (analyzeCV cv job)).score
        (analysisOf (analyzeCV cv job)).explanation
      have h2 := forall₂_derivedIn_trans h1 hfa
      exact List.Forall₂.imp
        (fun x y hxy => derivedIn_mono (fun i hi => by simpa using hi) hxy) h2

/-- C4 (amended): an evaluation error for one candidate aborts the whole
batch — the handler answers 500 with no per-entry markers; candidates
scored before the failure keep their persisted scores, while the failed and
all remaining candidates are left untouched, still pending and unscored and
eligible for a later retry. -/
theorem C4_batch_aborts (db : DB) (k : String) (job : Job) (restJ : List Job)
    (pre post : List Application) (bad : Application)
    (hk : k ≠ "")
    (hfil : db.jobs.filter (fun j => j.job_key == k) = job :: restJ)
    (hsel : selectedApps db k = pre ++ bad :: post)
    (hpre : ∀ b ∈ pre, b.cv_content ≠ .malformed)
    (hbad : bad.cv_content = .malformed) :
    (rankHandler db (some k)).fst = .serverError "Failed to rank applications" ∧
    ∀ r ∈ db.applications, r.id ∉ pre.map (fun b => b.id) →
      r ∈ (rankHandler db (some k)).snd.applications := by
  obtain ⟨dbf, hp, hfa⟩ := processApps_early_fail job bad post hbad pre db hpre
  have hne : (pre ++ bad :: post).isEmpty = false := by
    cases pre <;> rfl
  have hrank : rankHandler db (some k) =
      (.serverError "Failed to rank applications", dbf) := by
    rw [rankHandler, if_neg hk]
    simp only [hfil, rankForJob, hsel, hne, Bool.false_eq_true, if_false, hp]
  rw [hrank]
  refine ⟨rfl, ?_⟩
  intro r hr hid
  obtain ⟨r2, hr2, hder⟩ := forall₂_mem_left hfa hr
  rcases hder with rfl | ⟨s, e, rfl, hmem⟩
  · exact hr2
  · exact absurd hmem hid

/-- Witness for C4's amended theorem: with candidates 1 (well-formed),
2 (malformed) and 3 (well-formed) pending, the call answers 500 and both
the failed and the not-yet-reached candidate rows are unchanged. -/
theorem C4_abort_witness :
    (rankHandler dbC4 (some "jobc")).fst = .serverError "Failed to rank applications" ∧
    appBadC4 ∈ (rankHandler dbC4 (some "jobc")).snd.applications ∧
    appOkC4 3 ∈ (rankHandler dbC4 (some "jobc")).snd.applications := by
  have h := C4_batch_aborts dbC4 "jobc" jobC4 [] [appOkC4 1] [appOkC4 3] appBadC4
    (by decide) rfl rfl (by decide) rfl
  exact ⟨h.1, h.2 appBadC4 (by decide) (by decide),
    h.2 (appOkC4 3) (by decide) (by decide)⟩

/-- C4 counterexample: one malformed candidate in the middle of the batch
makes the whole call answer 500 with no entries at all — the batch is
aborted instead of isolating the failure — while the first candidate's
score is already persisted and the failed and remaining candidates stay
pending and unscored. -/
theorem C4_counterexample :
    rankHandler dbC4 (some "jobc") =
      (.serverError "Failed to rank applications", dbC4after) ∧
    appBadC4.ai_score = none ∧ (appOkC4 3).ai_score = none :=
  ⟨rfl, rfl, rfl⟩

/-- Sanity: the deterministic handler model runs the row loop on the
representative order `selectedApps db k`, which is one legal SELECT result
(`List.Perm.refl`). -/
theorem rankForJob_eq_rankForJobRows (db : DB) (k : String) (job : Job) :
    rankForJob db k job = rankForJobRows db job (selectedApps db k) := rfl

/-- C9 (amended): whatever order the database returns the pending batch in
— the SELECT has no ORDER BY, so any permutation of the matching rows is a
legal result — a successful run returns the loop's entries sorted by score
descending, and the sort is stable: entries with equal scores keep the
relative order in which the rows were returned (equal filtered sublists,
and the loop's entries follow the returned row order).  Because the
returned order need not be submission order, the earlier-submitted-first
tie-break is not guaranteed — see the counterexample. -/
theorem C9_rank_sorted_stable_rows (db : DB) (k : String) (job : Job)
    (rows : List Application) (es : List RankedEntry) (dbf : DB)
    (hrows : LegalPendingRows db k rows)
    (hne : rows.isEmpty = false)
    (hp : processApps job rows db = .done es dbf) :
    rankForJobRows db job rows = (.ok (sortByDesc (fun e => e.score) es), dbf) ∧
    (sortByDesc (fun e => e.score) es).Pairwise (fun a b => b.score ≤ a.score) ∧
    (∀ s : Nat, (sortByDesc (fun e => e.score) es).filter (fun e => e.score == s) =
      es.filter (fun e => e.score == s)) ∧
    es.map (fun e => e.id) = rows.map (fun a => a.id) := by
  refine ⟨?_, sortByDesc_pairwise (fun e => e.score) es,
    fun s => sortByDesc_filter (fun e => e.score) es s,
    processApps_done_ids job rows db es dbf hp⟩
  simp only [rankForJobRows, hne, Bool.false_eq_true, if_false, hp]

/-- Witness for C9's amended theorem, at both legal orders of the same
two-row equal-score batch: each run keeps the order the rows came back in,
so the two legal orders produce opposite rankings. -/
theorem C9_sorted_stable_rows_witness :
    rankForJobRows dbS jobS [appS 1, appS 2] =
      (.ok (sortByDesc (fun e => e.score) esS), dbSafter) ∧
    (sortByDesc (fun e => e.score) esS).filter (fun e => e.score == 10) =
      esS.filter (fun e => e.score == 10) ∧
    rankForJobRows dbS jobS [appS 2, appS 1] =
      (.ok (sortByDesc (fun e => e.score) esR), dbSafter) ∧
    (sortByDesc (fun e => e.score) esR).filter (fun e => e.score == 10) =
      esR.filter (fun e => e.score == 10) := by
  have h1 := C9_rank_sorted_stable_rows dbS "jobst" jobS [appS 1, appS 2] esS dbSafter
    (List.Perm.refl _) rfl rfl
  have h2 := C9_rank_sorted_stable_rows dbS "jobst" jobS [appS 2, appS 1] esR dbSafter
    (List.Perm.swap (appS 1) (appS 2) []) rfl rfl
  exact ⟨h1.1, h1.2.2.1 10, h2.1, h2.2.2.1 10⟩

/-- C9 counterexample: `dbS` holds two equal-scoring candidates submitted
in id order 1 then 2.  Returning them as [row 2, row 1] is a legal result
of the ORDER-BY-less SELECT; the stable sort keeps that order, so the
ranking puts the later-submitted candidate first despite the equal scores —
the earlier-submission tie-break fails at this concrete input. -/
theorem C9_counterexample :
    dbS.applications = [appS 1, appS 2] ∧
    LegalPendingRows dbS "jobst" [appS 2, appS 1] ∧
    rankForJobRows dbS jobS [appS 2, appS 1] =
      (.ok [{ id := 2, anonymized_id := "APP_S2", score := 10,
              explanation := warnExplanation },
            { id := 1, anonymized_id := "APP_S1", score := 10,
              explanation := warnExplanation }], dbSafter) :=
  ⟨rfl, List.Perm.swap (appS 1) (appS 2) [], rfl⟩

end FairHire
